import Mathlib

/-!
Verification of the document-ingestion pipeline of the dsa-learning-agent
repository: a shallow embedding of `pdf_parser.py`, `text_splitter.py` and
`db_populator.py` (package `src/data_processing`), with theorems settling the
stated properties of the specification.

Text is embedded as `List Char`.  Python `re` operations are embedded by
dedicated matchers that reproduce the exact greedy/lazy semantics of the
concrete patterns appearing in the source (argued pattern by pattern in the
doc comments).  Machine integers are `Int`/`Nat`; page numbers and heading
levels are `Int` because `end_page = next_page - 1` may go negative in Python.
-/

/-- Whitespace test matching Python `\s` on the ASCII range (the inputs
considered here contain no non-ASCII whitespace). -/
def isWs (c : Char) : Bool :=
  c = ' ' || c = '\t' || c = '\n' || c = '\x0d' || c = '\x0b' || c = '\x0c'

/-- Decimal digit test matching Python `\d` on the ASCII range. -/
def isDigitCh (c : Char) : Bool :=
  '0' ≤ c && c ≤ '9'

/-- Lowercase Cyrillic range `[а-я]` (U+0430..U+044F), exactly the character
class written in the source's concept patterns (note: excludes `ё`). -/
def isCyr (c : Char) : Bool :=
  'а' ≤ c && c ≤ 'я'

/-- Word character matching Python `\w` restricted to ASCII letters, digits,
underscore and the Cyrillic alphabet (the only characters in play here). -/
def isWordCh (c : Char) : Bool :=
  c.isAlpha || isDigitCh c || c = '_' || isCyr c ||
    ('А' ≤ c && c ≤ 'Я') || c = 'ё' || c = 'Ё'

/-- Lowercasing matching Python `str.lower` on ASCII letters and the Cyrillic
alphabet (the only characters appearing in the analysed inputs). -/
def pyLower (c : Char) : Char :=
  if 'A' ≤ c && c ≤ 'Z' then Char.ofNat (c.toNat + 32)
  else if 'А' ≤ c && c ≤ 'Я' then Char.ofNat (c.toNat + 32)
  else if c = 'Ё' then 'ё'
  else c

/-- Join a list of strings with a separator, as Python `sep.join(parts)`. -/
def joinSep (sep : List Char) : List (List Char) → List Char
  | [] => []
  | [p] => p
  | p :: ps => p ++ sep ++ joinSep sep ps

/-- Elements of `dropWhile` are elements of the original list. -/
theorem mem_of_mem_dropWhile {p : Char → Bool} {x : Char} :
    ∀ {l : List Char}, x ∈ l.dropWhile p → x ∈ l := by
  intro l
  induction l with
  | nil => intro h; simp at h
  | cons c cs ih =>
    intro h
    by_cases hc : p c
    · simp [List.dropWhile, hc] at h
      exact List.mem_cons_of_mem _ (ih h)
    · simpa [List.dropWhile, hc] using h

/-- Python `str.strip()`: drop leading and trailing whitespace. -/
def stripChars (l : List Char) : List Char :=
  ((((l.dropWhile isWs).reverse).dropWhile isWs)).reverse

/-- Elements of `stripChars l` are elements of `l`. -/
theorem mem_of_mem_stripChars {x : Char} {l : List Char}
    (h : x ∈ stripChars l) : x ∈ l := by
  unfold stripChars at h
  rw [List.mem_reverse] at h
  have h1 := mem_of_mem_dropWhile h
  rw [List.mem_reverse] at h1
  exact mem_of_mem_dropWhile h1

/-- Parse a digit run as a natural number, as Python `int` on a `\d+` match. -/
def natOfDigits (ds : List Char) : Nat :=
  ds.foldl (fun acc c => 10 * acc + (c.toNat - 48)) 0

/-- Split on newline characters, as Python `text.split("\n")`. -/
def splitOnNlAux (cur : List Char) : List Char → List (List Char)
  | [] => [cur.reverse]
  | c :: cs => if c = '\n' then cur.reverse :: splitOnNlAux [] cs
               else splitOnNlAux (c :: cur) cs

/-- Python `text.split("\n")`. -/
def splitOnNl (l : List Char) : List (List Char) :=
  splitOnNlAux [] l

/-! ### PDFParser._clean_text

The source applies three `re.sub` passes and a final `strip`:
`\s+` → `" "`, then `\n\s*\d+\s*\n` → `"\n"`, then `\n\s*\n` → `"\n\n"`. -/

/-- First substitution `re.sub(r"\s+", " ", text)`: every maximal whitespace
run becomes a single space.  The flag records whether the previous character
was part of a whitespace run already replaced. -/
def collapseWsAux (prevWs : Bool) : List Char → List Char
  | [] => []
  | c :: cs =>
    if isWs c then
      if prevWs then collapseWsAux true cs else ' ' :: collapseWsAux true cs
    else c :: collapseWsAux false cs

/-- Python `re.sub(r"\s+", " ", text)`. -/
def collapseWs (l : List Char) : List Char :=
  collapseWsAux false l

/-- Index of the last `'\n'` in a list, if any. -/
def lastNlIdx (l : List Char) : Option Nat :=
  match l.reverse.findIdx? (· = '\n') with
  | none => none
  | some j => some (l.length - 1 - j)

/-- Matcher for `\n\s*\d+\s*\n` at the head of the input, returning the match
length and the replacement `"\n"`.  The pattern is backtracking-free except in
`\s*\n`, where the greedy `\s*` backs off to the last newline of the
whitespace run; `\s*` before `\d+` never backtracks because `\s` and `\d` are
disjoint. -/
def tryPageNum : List Char → Option (Nat × List Char)
  | [] => none
  | c :: r =>
    if c = '\n' then
      let w1 := r.takeWhile isWs
      let ds := (r.drop w1.length).takeWhile isDigitCh
      if ds = [] then none
      else
        let r2 := r.drop (w1.length + ds.length)
        let run := r2.takeWhile isWs
        match lastNlIdx run with
        | none => none
        | some k => some (1 + w1.length + ds.length + (k + 1), ['\n'])
    else none

/-- Matcher for `\n\s*\n` at the head of the input, returning the match length
and the replacement `"\n\n"`. -/
def tryBlank : List Char → Option (Nat × List Char)
  | [] => none
  | c :: r =>
    if c = '\n' then
      let run := r.takeWhile isWs
      match lastNlIdx run with
      | none => none
      | some k => some (1 + (k + 1), ['\n', '\n'])
    else none

/-- Python `re.sub` driver: scan left to right, replacing leftmost
non-overlapping matches and resuming after each match.  Every matcher used
here consumes at least two characters, so fuel `l.length` always suffices. -/
def reSubAux (try_ : List Char → Option (Nat × List Char)) :
    Nat → List Char → List Char
  | 0, l => l
  | _ + 1, [] => []
  | fuel + 1, c :: cs =>
    match try_ (c :: cs) with
    | some (n, repl) => repl ++ reSubAux try_ fuel (List.drop (n - 1) cs)
    | none => c :: reSubAux try_ fuel cs

/-- Python `re.sub(r"\n\s*\d+\s*\n", "\n", text)`. -/
def subPageNum (l : List Char) : List Char :=
  reSubAux tryPageNum l.length l

/-- Python `re.sub(r"\n\s*\n", "\n\n", text)`. -/
def subBlank (l : List Char) : List Char :=
  reSubAux tryBlank l.length l

/-- Embedding of `PDFParser._clean_text`: collapse whitespace runs, remove
page-number lines, normalise blank lines, strip. -/
def cleanText (t : List Char) : List Char :=
  stripChars (subBlank (subPageNum (collapseWs t)))

/-- Output of the whitespace-collapsing pass contains no newline. -/
theorem collapseWsAux_no_nl (b : Bool) (l : List Char) :
    '\n' ∉ collapseWsAux b l := by
  induction l generalizing b with
  | nil => simp [collapseWsAux]
  | cons c cs ih =>
    by_cases hc : isWs c
    · cases b with
      | true => simpa [collapseWsAux, hc] using ih true
      | false =>
        simp only [collapseWsAux, hc, if_true, if_false]
        intro hmem
        rcases List.mem_cons.mp hmem with h | h
        · exact absurd h.symm (by decide)
        · exact ih true h
    · simp only [collapseWsAux, hc, if_false]
      intro hmem
      rcases List.mem_cons.mp hmem with h | h
      · subst h; exact hc (by decide)
      · exact ih false h

/-- A `re.sub` pass whose matcher requires a leading newline is the identity
on newline-free text. -/
theorem reSubAux_id (try_ : List Char → Option (Nat × List Char))
    (htry : ∀ c cs, c ≠ '\n' → try_ (c :: cs) = none)
    (fuel : Nat) (l : List Char) (hl : '\n' ∉ l) :
    reSubAux try_ fuel l = l := by
  induction fuel generalizing l with
  | zero => rfl
  | succ n ih =>
    cases l with
    | nil => rfl
    | cons c cs =>
      have hc : c ≠ '\n' := fun h => hl (h ▸ List.mem_cons_self c cs)
      have hcs : '\n' ∉ cs := fun h => hl (List.mem_cons_of_mem c h)
      simp [reSubAux, htry c cs hc, ih cs hcs]

/-- The page-number matcher requires a leading newline. -/
theorem tryPageNum_none (c : Char) (cs : List Char) (hc : c ≠ '\n') :
    tryPageNum (c :: cs) = none := by
  simp [tryPageNum, hc]

/-- The blank-line matcher requires a leading newline. -/
theorem tryBlank_none (c : Char) (cs : List Char) (hc : c ≠ '\n') :
    tryBlank (c :: cs) = none := by
  simp [tryBlank, hc]

/-- C10: for every input string, `_clean_text` returns a string containing no
newline character; its first substitution collapses every whitespace run
(newlines included) to a single space, so the following page-number-line
removal and blank-line normalisation passes, whose patterns both require a
newline, leave the text unchanged. -/
theorem C10_clean_text_no_newline (t : List Char) :
    subPageNum (collapseWs t) = collapseWs t ∧
    subBlank (collapseWs t) = collapseWs t ∧
    '\n' ∉ cleanText t := by
  have hnl : '\n' ∉ collapseWs t := collapseWsAux_no_nl false t
  have h1 : subPageNum (collapseWs t) = collapseWs t :=
    reSubAux_id tryPageNum tryPageNum_none _ _ hnl
  have h2 : subBlank (collapseWs t) = collapseWs t :=
    reSubAux_id tryBlank tryBlank_none _ _ hnl
  refine ⟨h1, h2, ?_⟩
  intro hmem
  unfold cleanText at hmem
  rw [h1, h2] at hmem
  exact hnl (mem_of_mem_stripChars hmem)

/-! ### PDFParser: section slicing (`extract_content_by_toc`)

The outline is the list `self.toc` of `(level, title, page)` triples as
returned by `doc.get_toc()` or by the manual extraction.  Levels and pages are
`Int` because Python computes `next_page - 1`, which may be negative.  The
document is the list of its pages' raw texts; `len(self.doc)` is the page
count. -/

/-- Outline entry `(level, title, page)` as stored in `self.toc`. -/
abbrev OutlineTriple := Int × List Char × Int

/-- Section dictionary built by `extract_content_by_toc`. -/
structure PSection where
  level : Int
  title : List Char
  startPage : Int
  endPage : Int
  content : List Char
  ptype : List Char
  deriving DecidableEq, Repr

instance : Inhabited PSection :=
  ⟨⟨0, [], 0, 0, [], []⟩⟩

/-- Substring containment, as Python `needle in haystack`. -/
def containsSub (needle : List Char) : List Char → Bool
  | [] => needle.isEmpty
  | c :: cs => needle.isPrefixOf (c :: cs) || containsSub needle cs

/-- Test for `re.match(r"^\d+\.", title)`: a nonempty digit run followed by a
dot. -/
def startsNumDot (title : List Char) : Bool :=
  let ds := title.takeWhile isDigitCh
  !ds.isEmpty && (title.drop ds.length).headD ' ' = '.'

/-- Embedding of `PDFParser._classify_heading`. -/
def classifyHeading (level : Int) (title : List Char) : List Char :=
  let tl := title.map pyLower
  if containsSub "лекция".data tl || level = 1 then "lecture".data
  else if level = 2 || startsNumDot title then "section".data
  else if 3 ≤ level then "subsection".data
  else "unknown".data

/-- Embedding of the inner scan of `extract_content_by_toc`: the first entry
after position `i` whose level is `≤ level` fixes `end_page = page - 1`;
when none exists `end_page = len(self.doc)`. -/
def endPageFor (lvl : Int) (later : List OutlineTriple) (total : Int) : Int :=
  match later.find? (fun t => t.1 ≤ lvl) with
  | some t => t.2.2 - 1
  | none => total

/-- Python `range(a, b)` over integers. -/
def intRange (a b : Int) : List Int :=
  (List.range (b - a).toNat).map (fun k => a + (k : Int))

/-- Python sequence indexing `doc[i]` with negative-index wrap-around.
Indices below `-len` raise `IndexError` in Python; they never arise in the
statements proved here, and the embedding returns the empty page for them. -/
def pyIndex (pages : List (List Char)) (i : Int) : List Char :=
  if 0 ≤ i then pages.getD i.toNat []
  else pages.getD (pages.length + i).toNat []

/-- Embedding of `PDFParser._extract_text_from_pages`: per-page cleaned text
for `range(start_page, min(end_page, len(doc)))`, joined with a blank line. -/
def extractTextFromPages (pages : List (List Char)) (s e : Int) : List Char :=
  joinSep "\n\n".data
    ((intRange s (min e (pages.length : Int))).map (fun i => cleanText (pyIndex pages i)))

/-- Embedding of `PDFParser.extract_content_by_toc` on an already-extracted
outline `toc`: one section dictionary per outline entry, in order. -/
def extractContentByToc (pages : List (List Char)) (toc : List OutlineTriple) :
    List PSection :=
  (List.range toc.length).map (fun i =>
    let t := toc.getD i default
    let endP := endPageFor t.1 (toc.drop (i + 1)) (pages.length : Int)
    { level := t.1
      title := stripChars t.2.1
      startPage := t.2.2
      endPage := endP
      content := extractTextFromPages pages (t.2.2 - 1) endP
      ptype := classifyHeading t.1 t.2.1 })

/-! ### PDFParser._extract_toc_manually

The source tries three `re.match` patterns per line, first match winning:
lecture `^Лекция\s+(\d+)[\.\s]+(.*?)\s+\.{2,}\s*(\d+)` (IGNORECASE, level 1),
two-level `^(\d+)\.(\d+)[\.\s]+(.*?)\s+\.{2,}\s*(\d+)` (level 2), and
three-level `^(\d+)\.(\d+)\.(\d+)[\.\s]+(.*?)\s+\.{2,}\s*(\d+)` (level 3).

The shared tail `\s+\.{2,}\s*(\d+)` is backtracking-free: the character
classes of adjacent atoms are pairwise disjoint, so each greedy run is forced.
The only genuine backtracking is between the greedy `[\.\s]+` (longest first)
and the lazy `(.*?)` (shortest first), embedded below as a double search with
exactly that preference order. -/

/-- Matcher for the tail `\s+\.{2,}\s*(\d+)` at the head of the input
(no end anchor: trailing characters are ignored, as with `re.match`).
Returns the page number captured by the final `(\d+)`. -/
def tailPageMatch (l : List Char) : Option Int :=
  let w := l.takeWhile isWs
  if w = [] then none
  else
    let r1 := l.drop w.length
    let dots := r1.takeWhile (· = '.')
    if dots.length < 2 then none
    else
      let r2 := r1.drop dots.length
      let w2 := r2.takeWhile isWs
      let ds := (r2.drop w2.length).takeWhile isDigitCh
      if ds = [] then none else some (natOfDigits ds : Int)

/-- Lazy search for `(.*?)\s+\.{2,}\s*(\d+)`: the shortest title prefix (dot
`.` does not cross a newline) after which the tail matches. -/
def lazyTitleTail (l : List Char) : Option (List Char × Int) :=
  (List.range (l.length + 1)).findSome? (fun k =>
    if (l.take k).all (· ≠ '\n') then
      (tailPageMatch (l.drop k)).map (fun pg => (l.take k, pg))
    else none)

/-- Search for `[\.\s]+(.*?)\s+\.{2,}\s*(\d+)`: the greedy `[\.\s]+` is tried
longest first (regex preference of an earlier greedy atom), the lazy title
shortest first within each choice. -/
def dotsSpacesLazy (l : List Char) : Option (List Char × Int) :=
  let run := l.takeWhile (fun c => c = '.' || isWs c)
  if run = [] then none
  else
    (List.range run.length).findSome? (fun d =>
      lazyTitleTail (l.drop (run.length - d)))

/-- Case-insensitive literal test at the start of the input, as a literal
under `re.IGNORECASE`. -/
def ciStarts (pat l : List Char) : Bool :=
  pat.length ≤ l.length && (l.take pat.length).map pyLower == pat.map pyLower

/-- Embedding of the lecture branch: on success the appended entry is
`(1, "Лекция {n}: {title}", page)`. -/
def matchLecture (line : List Char) : Option (Int × List Char × Int) :=
  if ciStarts "лекция".data line then
    let r := line.drop 6
    let w := r.takeWhile isWs
    if w = [] then none
    else
      let ds := (r.drop w.length).takeWhile isDigitCh
      if ds = [] then none
      else
        match dotsSpacesLazy (r.drop (w.length + ds.length)) with
        | none => none
        | some (t, pg) =>
          some (1, "Лекция ".data ++ ds ++ ": ".data ++ stripChars t, pg)
  else none

/-- Parse `^(\d+)\.` : a digit run followed by a literal dot, returning the
digits and the rest. -/
def numDot (l : List Char) : Option (List Char × List Char) :=
  let ds := l.takeWhile isDigitCh
  if ds = [] then none
  else
    match l.drop ds.length with
    | '.' :: r => some (ds, r)
    | _ => none

/-- Embedding of the two-level branch: on success the appended entry is
`(2, "{n}.{m} {title}", page)`. -/
def matchTwoLevel (line : List Char) : Option (Int × List Char × Int) :=
  match numDot line with
  | none => none
  | some (g1, r1) =>
    let g2 := r1.takeWhile isDigitCh
    if g2 = [] then none
    else
      match dotsSpacesLazy (r1.drop g2.length) with
      | none => none
      | some (t, pg) =>
        some (2, g1 ++ ".".data ++ g2 ++ " ".data ++ stripChars t, pg)

/-- Embedding of the three-level branch: on success the appended entry is
`(3, "{n}.{m}.{k} {title}", page)`. -/
def matchThreeLevel (line : List Char) : Option (Int × List Char × Int) :=
  match numDot line with
  | none => none
  | some (g1, r1) =>
    match numDot r1 with
    | none => none
    | some (g2, r2) =>
      let g3 := r2.takeWhile isDigitCh
      if g3 = [] then none
      else
        match dotsSpacesLazy (r2.drop g3.length) with
        | none => none
        | some (t, pg) =>
          some (3, g1 ++ ".".data ++ g2 ++ ".".data ++ g3 ++ " ".data ++ stripChars t, pg)

/-- Embedding of the per-line decision of `_extract_toc_manually`: the three
patterns are tried in source order (lecture, two-level, three-level) and the
first match appends its entry (`continue` skips the remaining patterns). -/
def scanTocLine (line : List Char) : Option (Int × List Char × Int) :=
  match matchLecture line with
  | some e => some e
  | none =>
    match matchTwoLevel line with
    | some e => some e
    | none => matchThreeLevel line

/-- Embedding of `PDFParser._extract_toc_manually`: scan the first
`min(10, len(doc))` pages line by line, appending one entry per matching
line. -/
def extractTocManually (pages : List (List Char)) : List OutlineTriple :=
  ((pages.take (min 10 pages.length)).map splitOnNl).flatten.filterMap scanTocLine

/-! ### SmartTextSplitter._extract_concepts

The source runs `re.findall(pattern, text.lower())` for seventeen fixed
patterns and returns `list(set(all_matches))[:10]`.  Every pattern is a
literal stem followed by character-class repetitions, wrapped in `\b(...)`
(the `O\(...\)` pattern lacks the closing `\b`).  For each of these patterns
greedy matching without backtracking is exact, because every repetition is
followed either by a word boundary (and the repeated class contains only word
characters, so shortening the run cannot create a boundary) or by a literal
whose first character the repeated class excludes. -/

/-- Repetition kind of a character-class atom. -/
inductive RepKind where
  | one
  | star
  | plus
  deriving DecidableEq

/-- Pattern atom: a literal or a repeated character class. -/
inductive RAtom where
  | lit (s : List Char)
  | cls (p : Char → Bool) (r : RepKind)

/-- Greedy matcher for a sequence of atoms at the head of the input; returns
the consumed characters. -/
def matchAtoms : List RAtom → List Char → Option (List Char)
  | [], _ => some []
  | .lit s :: rest, l =>
    if s.isPrefixOf l then (matchAtoms rest (l.drop s.length)).map (s ++ ·)
    else none
  | .cls p .one :: rest, l =>
    match l with
    | [] => none
    | c :: cs => if p c then (matchAtoms rest cs).map (c :: ·) else none
  | .cls p .star :: rest, l =>
    let run := l.takeWhile p
    (matchAtoms rest (l.drop run.length)).map (run ++ ·)
  | .cls p .plus :: rest, l =>
    let run := l.takeWhile p
    if run = [] then none
    else (matchAtoms rest (l.drop run.length)).map (run ++ ·)

/-- A concept pattern: atoms of the captured group and whether a closing
`\b` follows the group. -/
structure CPattern where
  atoms : List RAtom
  endB : Bool

/-- Word-character test on an optional character (`none` = text edge). -/
def wordOpt : Option Char → Bool
  | none => false
  | some c => isWordCh c

/-- Word boundary `\b` between two adjacent positions. -/
def bdry (a b : Option Char) : Bool :=
  wordOpt a != wordOpt b

/-- Try a pattern at the current position, `prev` being the preceding
character: check the opening `\b`, run the atoms, check the closing `\b`. -/
def tryCPattern (p : CPattern) (prev : Option Char) (l : List Char) :
    Option (List Char) :=
  if bdry prev l.head? then
    match matchAtoms p.atoms l with
    | none => none
    | some m =>
      if m = [] then none
      else if p.endB then
        if bdry m.getLast? (l.drop m.length).head? then some m else none
      else some m
  else none

/-- Driver for `re.findall`: scan left to right; on a match, emit the capture
and resume after it (non-overlapping); otherwise advance one character.
Every emitted match is nonempty, so fuel `l.length` suffices. -/
def findAllAux (p : CPattern) (prev : Option Char) :
    Nat → List Char → List (List Char)
  | 0, _ => []
  | _ + 1, [] => []
  | fuel + 1, c :: cs =>
    match tryCPattern p prev (c :: cs) with
    | some m => m :: findAllAux p m.getLast? fuel (List.drop (m.length - 1) cs)
    | none => findAllAux p (some c) fuel cs

/-- Python `re.findall(pattern, l)` for a concept pattern. -/
def findAllPat (p : CPattern) (l : List Char) : List (List Char) :=
  findAllAux p none l.length l

/-- The seventeen concept patterns of `_extract_concepts`, in source order. -/
def conceptPatterns : List CPattern :=
  [ ⟨[.lit "алгоритм".data, .cls isCyr .star], true⟩,
    ⟨[.lit "сложност".data, .cls (fun c => c = 'ь' || c = 'и') .one], true⟩,
    ⟨[.lit "O(".data, .cls (fun c => c ≠ ')') .plus, .lit ")".data], false⟩,
    ⟨[.lit "дерев".data, .cls (fun c => c = 'а' || c = 'о') .one], true⟩,
    ⟨[.lit "граф".data, .cls isCyr .star], true⟩,
    ⟨[.lit "массив".data, .cls isCyr .star], true⟩,
    ⟨[.lit "список".data, .cls isCyr .star], true⟩,
    ⟨[.lit "стек".data, .cls isCyr .star], true⟩,
    ⟨[.lit "очеред".data, .cls (fun c => c = 'ь' || c = 'и' || c = 'я') .one], true⟩,
    ⟨[.lit "сортиров".data, .cls isCyr .plus], true⟩,
    ⟨[.lit "поиск".data, .cls isCyr .star], true⟩,
    ⟨[.lit "рекурси".data, .cls (fun c => c = 'я' || c = 'и') .one], true⟩,
    ⟨[.lit "динамическ".data, .cls isCyr .plus, .lit " программирован".data,
      .cls isCyr .plus], true⟩,
    ⟨[.lit "жадн".data, .cls isCyr .plus, .lit " алгоритм".data,
      .cls isCyr .star], true⟩,
    ⟨[.lit "хеш".data, .cls isCyr .star], true⟩,
    ⟨[.lit "куч".data, .cls (fun c => c = 'а' || c = 'и') .one], true⟩,
    ⟨[.lit "обход".data, .cls isCyr .star], true⟩ ]

/-- Deduplication keeping first occurrences.  Python's `list(set(...))` has
no specified order; only membership and cardinality of the result are relied
on below, and both agree with any order. -/
def dedupFirstAux (seen : List (List Char)) : List (List Char) → List (List Char)
  | [] => []
  | x :: xs =>
    if x ∈ seen then dedupFirstAux seen xs
    else x :: dedupFirstAux (x :: seen) xs

/-- Embedding of `SmartTextSplitter._extract_concepts`: run every pattern on
the lower-cased text, concatenate the matches, deduplicate, keep at most 10
(the `[:10]` truncation of the source). -/
def extractConcepts (text : List Char) : List (List Char) :=
  (dedupFirstAux []
    ((conceptPatterns.map (fun p => findAllPat p (text.map pyLower))).flatten)).take 10

/-! ### ChunkSplitter (RecursiveCharacterTextSplitter)

`SmartTextSplitter` delegates the actual splitting to langchain's
`RecursiveCharacterTextSplitter`, a third-party dependency whose code is not
part of this repository. -/

/-- Last `n` characters of a list. -/
def takeRightL (n : Nat) (l : List Char) : List Char :=
  l.drop (l.length - n)

/-- Modelled from the spec: the merge step of the separator cascade.  Small
pieces are greedily accumulated while the running chunk stays within
`size`; when the next piece would overflow, the current chunk is emitted and
the next chunk starts with up to `ov` characters of the previous chunk's tail
("the overlapping characters duplicate the tail of the previous chunk as the
head of the next"), clamped so the budget is kept ("allowing for
separator-boundary adjustment"). -/
def mergeAux (size ov : Nat) (acc : List Char) :
    List (List Char) → List (List Char)
  | [] => if acc.isEmpty then [] else [acc]
  | p :: ps =>
    if acc.length + p.length ≤ size then mergeAux size ov (acc ++ p) ps
    else acc :: mergeAux size ov (takeRightL (min ov (size - p.length)) acc ++ p) ps

/-- Modelled from the spec: split on a separator, keeping each separator
occurrence at the head of the following piece, non-overlapping, left to
right. -/
def sepSplitKeep (sep : List Char) : Nat → List Char → List Char → List (List Char)
  | 0, cur, rem => if (cur ++ rem).isEmpty then [] else [cur ++ rem]
  | _ + 1, cur, [] => if cur.isEmpty then [] else [cur]
  | fuel + 1, cur, c :: cs =>
    if sep ≠ [] && sep.isPrefixOf (c :: cs) then
      (if cur.isEmpty then [] else [cur]) ++
        sepSplitKeep sep fuel sep (List.drop (sep.length - 1) cs)
    else sepSplitKeep sep fuel (cur ++ [c]) cs

/-- Pieces of the text for one separator of the cascade: the empty-string
separator splits at the character level. -/
def piecesFor (sep : List Char) (text : List Char) : List (List Char) :=
  if sep = [] then text.map (fun c => [c])
  else sepSplitKeep sep text.length [] text

/-- Modelled from the spec: process the pieces of one cascade stage.  Pieces
that fit the budget are collected and merged; an oversized piece flushes the
collected pieces and is replaced by its recursive split (computed by the
caller and passed as `.inr`). -/
def assemblePieces (size ov : Nat) (good : List (List Char)) :
    List (List Char ⊕ List (List Char)) → List (List Char)
  | [] => mergeAux size ov [] good
  | .inl p :: ps => assemblePieces size ov (good ++ [p]) ps
  | .inr cs :: ps => mergeAux size ov [] good ++ cs ++ assemblePieces size ov [] ps

/-- Modelled from the spec: the prioritized separator cascade of
`RecursiveCharacterTextSplitter` (third-party code, not under `src/`).
Content that fits the budget is one chunk; otherwise it is split at the
current separator, pieces within budget are merged back up to the budget,
oversized pieces fall through to the next separator, and when separators run
out the text is split at the character level. -/
def splitCascade (size ov : Nat) : List (List Char) → List Char → List (List Char)
  | [], text => mergeAux size ov [] (text.map (fun c => [c]))
  | s :: rest, text =>
    if text.length ≤ size then [text]
    else
      assemblePieces size ov []
        ((piecesFor s text).map (fun p =>
          if p.length < size then .inl p else .inr (splitCascade size ov rest p)))

/-- The default separator cascade of `SmartTextSplitter.__init__`. -/
def defaultSeparators : List (List Char) :=
  ["\n\n\n".data, "\n\n".data, "\n".data, ". ".data, ", ".data, " ".data, []]

/-! ### SmartTextSplitter.split_section -/

/-- Chunk metadata dictionary built by `split_section`.  The `hierarchy` and
`concepts` values are stored as joined strings, exactly as in the source. -/
structure ChunkMeta where
  source : List Char
  title : List Char
  level : Int
  ctype : List Char
  page : Int
  chunkIndex : Nat
  totalChunks : Nat
  hierarchy : List Char
  concepts : List Char
  deriving DecidableEq, Repr

/-- A langchain `Document`: page content plus metadata. -/
structure ChunkDoc where
  pageContent : List Char
  metadata : ChunkMeta
  deriving DecidableEq, Repr

instance : Inhabited ChunkDoc :=
  ⟨⟨[], ⟨[], [], 0, [], 0, 0, 0, [], []⟩⟩⟩

/-- Embedding of `SmartTextSplitter.split_section`: empty content yields no
chunks; otherwise the content is split and each chunk receives its metadata,
with `hierarchy = " > ".join((parent_hierarchy or []) + [title])`. -/
def splitSection (size ov : Nat) (sd : PSection)
    (parentHierarchy : List (List Char)) : List ChunkDoc :=
  if sd.content = [] then []
  else
    let chunks := splitCascade size ov defaultSeparators sd.content
    let hier := parentHierarchy ++ [sd.title]
    (List.range chunks.length).map (fun i =>
      let chunk := chunks.getD i []
      { pageContent := chunk
        metadata :=
          { source := "algobook.pdf".data
            title := sd.title
            level := sd.level
            ctype := sd.ptype
            page := sd.startPage
            chunkIndex := i
            totalChunks := chunks.length
            hierarchy := joinSep " > ".data hier
            concepts := joinSep ", ".data (extractConcepts chunk) } })

/-! ### DatabasePopulator -/

/-- Inner walk of `_build_hierarchy`, over the already-visited sections in
reverse order (nearest first).  A section strictly shallower than the running
level is prepended (hence appears before the titles already collected from
deeper positions would — the result is returned root-first) and the running
level is updated; reaching level 1 stops the walk, exactly as the `break` in
the source. -/
def buildHierAux (cur : Int) : List PSection → List (List Char)
  | [] => []
  | s :: rest =>
    if s.level < cur then
      if s.level = 1 then [s.title]
      else buildHierAux s.level rest ++ [s.title]
    else buildHierAux cur rest

/-- Embedding of `DatabasePopulator._build_hierarchy`: walk
`sections[index-1]` down to `sections[0]` collecting the chain of strictly
shallower ancestors, root-first. -/
def buildHierarchy (sections : List PSection) (idx : Nat) : List (List Char) :=
  buildHierAux (sections.getD idx default).level ((sections.take idx).reverse)

/-- Result dictionary of `DatabasePopulator.populate`.  `sinkUsed` records
the identity of the `vector_store` object on which `add_documents` is called:
the manager the populator was constructed with is `sink`, and a reinitialised
manager (`VectorStoreManager()` after a successful `delete_collection`) is
`sink + 1`. -/
structure PopResult where
  status : List Char
  errorMsg : List Char
  totalSections : Nat
  totalDocuments : Nat
  documentIds : List Nat
  sinkUsed : Nat
  deriving DecidableEq, Repr

/-- Embedding of `DatabasePopulator.populate`.  The booleans model the
outcomes of the two fallible sink calls: `deleteRaises` — whether
`delete_collection()` raises, `addRaises` — whether `add_documents` raises.
When `clear_existing` is set the source runs `delete_collection()` and *then*
reassigns `self.vector_store = VectorStoreManager()` inside the same `try`,
so a raising delete skips the reassignment and only logs a warning.  The
parser is embedded by its extracted outline: a nonempty `embeddedToc` plays
the role of `doc.get_toc()`, otherwise the manual extraction runs.
`filter_complex_metadata` is the identity here because every metadata value
of `split_section` is a primitive (string or integer).  `add_documents`
returns one identifier per document, embedded as `List.range`. -/
def populateModel (size ov : Nat) (pages : List (List Char))
    (embeddedToc : List OutlineTriple)
    (clearExisting deleteRaises addRaises : Bool) (sink : Nat) : PopResult :=
  let sink1 :=
    if clearExisting then (if deleteRaises then sink else sink + 1) else sink
  let toc := if embeddedToc ≠ [] then embeddedToc else extractTocManually pages
  let sections := extractContentByToc pages toc
  let docs :=
    ((List.range sections.length).map (fun i =>
      splitSection size ov (sections.getD i default)
        (buildHierarchy sections i))).flatten
  if addRaises then
    { status := "error".data
      errorMsg := "add_documents failed".data
      totalSections := sections.length
      totalDocuments := docs.length
      documentIds := []
      sinkUsed := sink1 }
  else
    { status := "success".data
      errorMsg := []
      totalSections := sections.length
      totalDocuments := docs.length
      documentIds := List.range docs.length
      sinkUsed := sink1 }

/-! ### Claims C2, C3, C6: concrete evaluations -/

/-- Sample chunk text of claim C2. -/
def conceptSampleText : List Char :=
  "Массив имеет сложность O(n) при поиске".data

/-- C2 counterexample: on the input text of the claim, the returned concept
set contains neither `o(n)` nor the stems `сложност` and `поиск`.  The
`O\(...\)` pattern requires an uppercase `O` but is matched against
`text.lower()`, so it can never match; and `re.findall` captures whole word
forms (`сложность`, `поиске`), not stems. -/
theorem C2_concepts_counterexample :
    "o(n)".data ∉ extractConcepts conceptSampleText ∧
    "сложност".data ∉ extractConcepts conceptSampleText ∧
    "поиск".data ∉ extractConcepts conceptSampleText := by
  decide

/-- C2 amended: concept extraction on the claim's input returns exactly the
three full word forms `массив`, `сложность`, `поиске` (as a set: membership
plus cardinality three; the iteration order of Python's `set` is
unspecified), and in particular not `o(n)`. -/
theorem C2_concepts_exact :
    "массив".data ∈ extractConcepts conceptSampleText ∧
    "сложность".data ∈ extractConcepts conceptSampleText ∧
    "поиске".data ∈ extractConcepts conceptSampleText ∧
    (extractConcepts conceptSampleText).length = 3 := by
  decide

/-- Scanned line of claim C3: a three-level numeric shape `N.M.K title ...
page`. -/
def threeLevelLine : List Char :=
  "1.2.3 Алгоритмы .... 7".data

/-- C3: the three-level line is matched by the two-level pattern (whose
`[\.\s]+` absorbs the second dot and whose lazy group absorbs `3 `), which is
tried first, so the appended entry has level 2 and title `1.2 3 Алгоритмы`;
the three-level pattern alone would match the same line at level 3, so the
two patterns are not mutually exclusive and the level-3 branch is
unreachable. -/
theorem C3_three_level_line_gets_level_2 :
    scanTocLine threeLevelLine = some (2, "1.2 3 Алгоритмы".data, 7) ∧
    matchThreeLevel threeLevelLine = some (3, "1.2.3 Алгоритмы".data, 7) := by
  decide

/-- Three-section nested input of claim C6. -/
def nestedSections : List PSection :=
  [ ⟨1, "Лекция 1".data, 1, 10, "a".data, "lecture".data⟩,
    ⟨2, "1.1".data, 2, 5, "b".data, "section".data⟩,
    ⟨3, "1.1.1".data, 3, 4, "c".data, "subsection".data⟩ ]

/-- C6: on the 3-level input `[Лекция 1 (L1), 1.1 (L2), 1.1.1 (L3)]` the
backward walk of `_build_hierarchy` yields `["Лекция 1", "1.1"]` for the
level-3 section and `[]` for the level-1 section. -/
theorem C6_hierarchy_example :
    buildHierarchy nestedSections 2 = ["Лекция 1".data, "1.1".data] ∧
    buildHierarchy nestedSections 0 = [] := by
  decide

/-! ### Claim C1: end_page computation -/

/-- Scan formulation of the spec: walk the later entries in order; the first
one whose level is `≤ lvl` fixes `end_page = page - 1`; if the scan is
exhausted, `end_page` is the total page count. -/
def endPageFirst (lvl : Int) : List OutlineTriple → Int → Int
  | [], total => total
  | t :: rest, total =>
    if t.1 ≤ lvl then t.2.2 - 1 else endPageFirst lvl rest total

/-- Formula of claim C1, written from the claim's words: the minimum of
`page - 1` over all later entries with level `≤ lvl`, and the total page
count when there is no such entry. -/
def endPageSpecMin (lvl : Int) (later : List OutlineTriple) (total : Int) : Int :=
  match (later.filter (fun t => t.1 ≤ lvl)).map (fun t => t.2.2 - 1) with
  | [] => total
  | c :: cs => cs.foldl min c

/-- Outline with out-of-order pages refuting the minimum formulation. -/
def outOfOrderToc : List OutlineTriple :=
  [(1, "a".data, 1), (1, "b".data, 10), (1, "c".data, 5)]

/-- C1 counterexample: on an outline whose pages are not ascending (which the
outline order does not guarantee), entry 0 gets `end_page = 9` from the
*first* later entry of level `≤ 1` (page 10), whereas the claim's minimum
over all such entries would give `4` (from page 5). -/
theorem C1_min_counterexample :
    ((extractContentByToc [] outOfOrderToc).getD 0 default).endPage = 9 ∧
    endPageSpecMin 1 (outOfOrderToc.drop 1) 0 = 4 ∧ (9 : Int) ≠ 4 := by
  decide

/-- The source's `find?`-based scan agrees with the explicit first-match
recursion. -/
theorem endPageFor_eq_first (lvl : Int) (later : List OutlineTriple)
    (total : Int) : endPageFor lvl later total = endPageFirst lvl later total := by
  induction later with
  | nil => rfl
  | cons t ts ih =>
    by_cases h : t.1 ≤ lvl
    · simp [endPageFor, endPageFirst, List.find?_cons_of_pos, h]
    · simp only [endPageFirst, if_neg h, ← ih]
      simp [endPageFor, List.find?_cons_of_neg, h]

/-- C1 amended: for every outline and entry index `i`, the computed
`end_page` equals `page - 1` of the *first* later entry `j > i` with
`level[j] ≤ level[i]` (scan order, not the minimum over all such entries),
and the document's total page count when no such entry exists. -/
theorem C1_end_page_first (pages : List (List Char)) (toc : List OutlineTriple)
    (i : Nat) (h : i < toc.length) :
    ((extractContentByToc pages toc).getD i default).endPage =
      endPageFirst (toc.getD i default).1 (toc.drop (i + 1))
        (pages.length : Int) := by
  have hlen : i < ((List.range toc.length).map (fun i =>
      let t := toc.getD i default
      let endP := endPageFor t.1 (toc.drop (i + 1)) (pages.length : Int)
      (⟨t.1, stripChars t.2.1, t.2.2, endP,
        extractTextFromPages pages (t.2.2 - 1) endP,
        classifyHeading t.1 t.2.1⟩ : PSection))).length := by
    simpa using h
  rw [extractContentByToc, List.getD_eq_getElem _ _ hlen]
  simp only [List.getElem_map, List.getElem_range]
  exact endPageFor_eq_first _ _ _

/-- Witness for the amended C1 theorem at a concrete outline and index. -/
theorem C1_end_page_first_witness :
    ((extractContentByToc [] outOfOrderToc).getD 0 default).endPage =
      endPageFirst (outOfOrderToc.getD 0 default).1 (outOfOrderToc.drop 1)
        ((0 : Nat) : Int) :=
  C1_end_page_first [] outOfOrderToc 0 (by decide)

/-! ### Claim C8: one section per outline entry -/

/-- C8: for every outline with `N` entries, `extract_content_by_toc` produces
exactly `N` sections, one per entry (1:1), in the same order as the input
outline — each section carries the entry's level, stripped title and start
page, including entries that yield empty content. -/
theorem C8_sections_one_per_entry (pages : List (List Char))
    (toc : List OutlineTriple) :
    (extractContentByToc pages toc).length = toc.length ∧
    (extractContentByToc pages toc).map
        (fun s => (s.level, s.title, s.startPage)) =
      toc.map (fun t => (t.1, stripChars t.2.1, t.2.2)) := by
  constructor
  · simp [extractContentByToc]
  · apply List.ext_getElem
    · simp [extractContentByToc]
    · intro i h1 h2
      simp only [extractContentByToc, List.getElem_map, List.getElem_range]
      have hi : i < toc.length := by
        simpa [extractContentByToc] using h2
      rw [List.getD_eq_getElem _ _ hi]

/-! ### Claim C9: malformed page ranges and empty content -/

/-- C9: a malformed page range never produces an error: when
`end_page < start_page`, the extracted content (pages
`range(start_page - 1, min(end_page, len(doc)))`) is the empty string, and a
section with empty content yields zero chunks from `split_section` rather
than an error. -/
theorem C9_malformed_range_empty :
    (∀ (pages : List (List Char)) (s e : Int), e < s →
      extractTextFromPages pages (s - 1) e = []) ∧
    (∀ (size ov : Nat) (sd : PSection) (ph : List (List Char)),
      sd.content = [] → splitSection size ov sd ph = []) := by
  constructor
  · intro pages s e he
    have hz : (min e (pages.length : Int) - (s - 1)).toNat = 0 := by
      have : min e (pages.length : Int) ≤ e := min_le_left _ _
      omega
    simp [extractTextFromPages, intRange, hz, joinSep]
  · intro size ov sd ph hc
    simp [splitSection, hc]

/-- Witness for C9 at a concrete malformed range and a concrete empty
section. -/
theorem C9_malformed_range_empty_witness :
    extractTextFromPages [] ((5 : Int) - 1) 3 = [] ∧
    splitSection 5 2 ⟨1, "T".data, 1, 0, [], "lecture".data⟩ [] = [] :=
  ⟨C9_malformed_range_empty.1 [] 5 3 (by decide),
   C9_malformed_range_empty.2 5 2 ⟨1, "T".data, 1, 0, [], "lecture".data⟩ [] rfl⟩

/-! ### Claim C5: chunk size bound -/

/-- The overlap seed takes at most `n` characters. -/
theorem takeRightL_length_le (n : Nat) (l : List Char) :
    (takeRightL n l).length ≤ n := by
  simp only [takeRightL, List.length_drop]
  omega

/-- Every chunk emitted by the merge step stays within the budget, provided
the accumulator and every incoming piece do. -/
theorem mergeAux_bound (size ov : Nat) :
    ∀ (ps : List (List Char)) (acc : List Char), acc.length ≤ size →
      (∀ p ∈ ps, p.length ≤ size) →
      ∀ c ∈ mergeAux size ov acc ps, c.length ≤ size := by
  intro ps
  induction ps with
  | nil =>
    intro acc hacc _ c hc
    by_cases he : acc.isEmpty
    · simp [mergeAux, he] at hc
    · simp [mergeAux, he] at hc
      exact hc ▸ hacc
  | cons p ps ih =>
    intro acc hacc hps c hc
    have hp : p.length ≤ size := hps p (List.mem_cons_self p ps)
    have hps' : ∀ q ∈ ps, q.length ≤ size :=
      fun q hq => hps q (List.mem_cons_of_mem p hq)
    by_cases hfit : acc.length + p.length ≤ size
    · rw [mergeAux, if_pos hfit] at hc
      exact ih (acc ++ p) (by simpa using hfit) hps' c hc
    · rw [mergeAux, if_neg hfit] at hc
      rcases List.mem_cons.mp hc with h | h
      · exact h ▸ hacc
      · refine ih _ ?_ hps' c h
        have h1 := takeRightL_length_le (min ov (size - p.length)) acc
        simp only [List.length_append]
        omega

/-- Every chunk emitted by the piece-assembly step stays within the budget,
provided every collected piece, and every chunk of every recursively split
piece, does. -/
theorem assemblePieces_bound (size ov : Nat) :
    ∀ (hs : List (List Char ⊕ List (List Char))) (good : List (List Char)),
      (∀ p ∈ good, p.length ≤ size) →
      (∀ p, Sum.inl p ∈ hs → p.length ≤ size) →
      (∀ cs c, Sum.inr cs ∈ hs → c ∈ cs → c.length ≤ size) →
      ∀ c ∈ assemblePieces size ov good hs, c.length ≤ size := by
  intro hs
  induction hs with
  | nil =>
    intro good hgood _ _ c hc
    exact mergeAux_bound size ov good [] (by simp) hgood c hc
  | cons h hs ih =>
    intro good hgood hinl hinr c hc
    cases h with
    | inl p =>
      rw [assemblePieces] at hc
      refine ih (good ++ [p]) ?_ ?_ ?_ c hc
      · intro q hq
        rcases List.mem_append.mp hq with h | h
        · exact hgood q h
        · simp at h
          exact h ▸ hinl p (List.mem_cons_self _ _)
      · exact fun q hq => hinl q (List.mem_cons_of_mem _ hq)
      · exact fun cs d hcs hd => hinr cs d (List.mem_cons_of_mem _ hcs) hd
    | inr cs =>
      rw [assemblePieces] at hc
      rcases List.mem_append.mp hc with h | h
      · rcases List.mem_append.mp h with h1 | h1
        · exact mergeAux_bound size ov good [] (by simp) hgood c h1
        · exact hinr cs c (List.mem_cons_self _ _) h1
      · refine ih [] (by simp) ?_ ?_ c h
        · exact fun q hq => hinl q (List.mem_cons_of_mem _ hq)
        · exact fun ds d hds hd => hinr ds d (List.mem_cons_of_mem _ hds) hd

/-- Every chunk produced by the separator cascade stays within the budget. -/
theorem splitCascade_bound (size ov : Nat) (hsize : 0 < size) :
    ∀ (seps : List (List Char)) (text : List Char),
      ∀ c ∈ splitCascade size ov seps text, c.length ≤ size := by
  intro seps
  induction seps with
  | nil =>
    intro text c hc
    refine mergeAux_bound size ov _ [] (by simp) ?_ c hc
    intro p hp
    rcases List.mem_map.mp hp with ⟨d, _, he⟩
    simp [← he]
    omega
  | cons s rest ih =>
    intro text c hc
    by_cases hfit : text.length ≤ size
    · rw [splitCascade, if_pos hfit] at hc
      simp at hc
      exact hc ▸ hfit
    · rw [splitCascade, if_neg hfit] at hc
      refine assemblePieces_bound size ov _ [] (by simp) ?_ ?_ c hc
      · intro p hp
        rcases List.mem_map.mp hp with ⟨q, _, he⟩
        by_cases hq : q.length < size
        · rw [if_pos hq] at he
          cases he
          omega
        · rw [if_neg hq] at he
          cases he
      · intro cs d hcs hd
        rcases List.mem_map.mp hcs with ⟨q, _, he⟩
        by_cases hq : q.length < size
        · rw [if_pos hq] at he
          cases he
        · rw [if_neg hq] at he
          cases he
          exact ih q d hd

/-- C5: for every section content and every configured `chunkSize ≥ 1`, the
splitter never emits a chunk whose text exceeds `chunkSize`.  This is
stronger than the claim's statement (`≤ chunkSize` unless the chunk is a
single oversized atomic unit): the modelled cascade ends with the
empty-string separator, which splits at the character level, so the
exceptional case never arises and every chunk obeys the bound. -/
theorem C5_chunk_size_bound (size ov : Nat) (sd : PSection)
    (ph : List (List Char)) (doc : ChunkDoc) (hsize : 0 < size)
    (hdoc : doc ∈ splitSection size ov sd ph) :
    doc.pageContent.length ≤ size := by
  unfold splitSection at hdoc
  by_cases hc : sd.content = []
  · simp [hc] at hdoc
  · rw [if_neg hc] at hdoc
    rcases List.mem_map.mp hdoc with ⟨i, hi, he⟩
    have hpc : doc.pageContent =
        (splitCascade size ov defaultSeparators sd.content).getD i [] := by
      rw [← he]
    have hilt : i < (splitCascade size ov defaultSeparators sd.content).length :=
      List.mem_range.mp hi
    rw [hpc, List.getD_eq_getElem _ _ hilt]
    exact splitCascade_bound size ov hsize defaultSeparators sd.content _
      (List.getElem_mem hilt)

/-- Section used to witness the splitter claims on concrete data. -/
def sampleSection : PSection :=
  ⟨1, "T".data, 1, 1, "aaaa bb".data, "lecture".data⟩

/-- Witness for C5 at a concrete section whose content (7 characters) exceeds
the budget (5): the first produced chunk obeys the bound. -/
theorem C5_chunk_size_bound_witness :
    ((splitSection 5 2 sampleSection []).getD 0 default).pageContent.length ≤ 5 :=
  C5_chunk_size_bound 5 2 sampleSection []
    ((splitSection 5 2 sampleSection []).getD 0 default)
    (by decide) (by decide)

/-! ### Claim C7: hierarchy metadata -/

/-- C7: every chunk produced from a section with ancestor chain `ph` carries
the hierarchy metadata value built from the ordered list
`ph ++ [section.title]` — the titles from root to parent with the section's
own title last — stored, as in the source, as its `" > "`-join. -/
theorem C7_hierarchy_metadata (size ov : Nat) (sd : PSection)
    (ph : List (List Char)) (doc : ChunkDoc)
    (hdoc : doc ∈ splitSection size ov sd ph) :
    doc.metadata.hierarchy = joinSep " > ".data (ph ++ [sd.title]) := by
  unfold splitSection at hdoc
  by_cases hc : sd.content = []
  · simp [hc] at hdoc
  · rw [if_neg hc] at hdoc
    rcases List.mem_map.mp hdoc with ⟨i, _, he⟩
    rw [← he]

/-- Witness for C7 at a concrete section with a one-ancestor chain. -/
theorem C7_hierarchy_metadata_witness :
    ((splitSection 5 2 sampleSection ["R".data]).getD 0 default).metadata.hierarchy =
      joinSep " > ".data (["R".data] ++ ["T".data]) :=
  C7_hierarchy_metadata 5 2 sampleSection ["R".data]
    ((splitSection 5 2 sampleSection ["R".data]).getD 0 default) (by decide)

/-! ### Claim C4: clear failure is non-fatal -/

/-- C4 amended: when `clear_existing` is set and `delete_collection()`
raises, the run is not aborted — the failure is only logged and ingestion
continues — but against the *original* sink: the reassignment
`self.vector_store = VectorStoreManager()` sits after the raising call inside
the same `try`, so it is skipped.  The run still reports `status="success"`
when the subsequent write succeeds. -/
theorem C4_clear_failure_nonfatal (size ov : Nat) (pages : List (List Char))
    (etoc : List OutlineTriple) (sink : Nat) :
    (populateModel size ov pages etoc true true false sink).status =
      "success".data ∧
    (populateModel size ov pages etoc true true false sink).sinkUsed = sink := by
  simp [populateModel]

/-- Concrete one-page document and outline for the C4 counterexample. -/
def onePage : List (List Char) := ["ab".data]

/-- Concrete embedded outline for the C4 counterexample. -/
def oneEntryToc : List OutlineTriple := [(1, "T".data, 1)]

/-- C4 counterexample: with `clear_existing` set, a raising
`delete_collection()` and a succeeding write, the run reports success but
`add_documents` is called on the original sink (identity `0`), not on a
reinitialised one (which would have identity `1`) — refuting the claim that
ingestion continues against a reinitialized sink. -/
theorem C4_reinit_counterexample :
    (populateModel 1000 200 onePage oneEntryToc true true false 0).status =
      "success".data ∧
    (populateModel 1000 200 onePage oneEntryToc true true false 0).sinkUsed = 0 ∧
    (populateModel 1000 200 onePage oneEntryToc true true false 0).sinkUsed ≠ 1 := by
  decide
